import Mathlib

/-!
Verification of the wall/floor segmentation overlay pipeline
(src/src/MainNew.ts).

The embedding models byte arrays (`Uint8Array`) as `List ℕ`, float arrays
(`Float32Array`) as `List ℚ`, and the per-pixel score reads as functions
`ℕ → ℚ`.  Writes `arr[j] = v` become `List.set` (which, like typed-array
writes, ignores out-of-range indices), and reads `arr[j]` become
`List.getD _ j 0` (typed arrays are zero-initialized).
-/

namespace WallSeg

/-- `const radius = 1` inside `dilate`. -/
def radius : ℕ := 1

/-- The offsets scanned by `for (let d = -radius; d <= radius; d++)`. -/
def offs : List ℤ := (List.range (2 * radius + 1)).map (fun k => (k : ℤ) - (radius : ℤ))

/-- The bounds test `nx >= 0 && nx < width && ny >= 0 && ny < height`
for the neighbour `(x+dx, y+dy)` of source pixel `(x, y)`. -/
def hitCond (w h x y : ℕ) (dy dx : ℤ) : Prop :=
  0 ≤ (x : ℤ) + dx ∧ (x : ℤ) + dx < (w : ℤ) ∧ 0 ≤ (y : ℤ) + dy ∧ (y : ℤ) + dy < (h : ℤ)

instance (w h x y : ℕ) (dy dx : ℤ) : Decidable (hitCond w h x y dy dx) :=
  inferInstanceAs (Decidable (0 ≤ (x : ℤ) + dx ∧ (x : ℤ) + dx < (w : ℤ) ∧
    0 ≤ (y : ℤ) + dy ∧ (y : ℤ) + dy < (h : ℤ)))

/-- The write target `ny * width + nx` for neighbour `(x+dx, y+dy)`. -/
def hitIdx (w x y : ℕ) (dy dx : ℤ) : ℕ :=
  (((y : ℤ) + dy) * (w : ℤ) + ((x : ℤ) + dx)).toNat

/-- The inner `dx` loop of `dilate`: writes `result[ny*width+nx] = 1` for
every in-bounds neighbour of `(x, y)` in the row `y + dy`. -/
def touchRow (w h x y : ℕ) (dy : ℤ) (r : List ℕ) : List ℕ :=
  offs.foldl
    (fun r dx => if hitCond w h x y dy dx then r.set (hitIdx w x y dy dx) 1 else r)
    r

/-- The `dy`/`dx` double loop of `dilate` for one set source pixel `(x, y)`. -/
def touch (w h x y : ℕ) (r : List ℕ) : List ℕ :=
  offs.foldl (fun r dy => touchRow w h x y dy r) r

/-- `dilate(mask, width, height)` of MainNew.ts: result starts as
`new Uint8Array(mask.length)` (all zeros); each source pixel with
`mask[y*width+x] !== 0` sets every in-bounds neighbour within the radius-1
square to `1`; out-of-bounds neighbours are skipped. -/
def dilate (mask : List ℕ) (w h : ℕ) : List ℕ :=
  (List.range h).foldl
    (fun r y =>
      (List.range w).foldl
        (fun r x => if mask.getD (y * w + x) 0 = 0 then r else touch w h x y r)
        r)
    (List.replicate mask.length 0)

/-- The category-mask build loops of `drawSegmentationOverlay`:
`mask[i] = 1` exactly when `outputClasses[i] === target`
(`target = 0` for the wall mask, `target = 3` for the floor mask). -/
def buildMask (outputClasses : List ℕ) (target : ℕ) : List ℕ :=
  (List.range outputClasses.length).foldl
    (fun m i => if outputClasses.getD i 0 = target then m.set i 1 else m)
    (List.replicate outputClasses.length 0)

/-- The per-pixel argmax scan of `run`: `maxScore` starts at `-Infinity`
(modelled as `⊥ : WithBot ℚ`), `maxClass` starts at `0`, and each class
`c` wins only under the strict comparison `score > maxScore`. -/
def argmaxScan (score : ℕ → ℚ) (numClasses : ℕ) : WithBot ℚ × ℕ :=
  (List.range numClasses).foldl
    (fun s c =>
      if s.1 < ((score c : ℚ) : WithBot ℚ) then (((score c : ℚ) : WithBot ℚ), c) else s)
    ((⊥ : WithBot ℚ), 0)

/-- The decoded class for one spatial position (the value assigned to
`classIds[i]` before the `Uint8Array` store). -/
def decodePixel (score : ℕ → ℚ) (numClasses : ℕ) : ℕ := (argmaxScan score numClasses).2

/-- The whole decode loop of `run`: position `i` reads score
`outputData[c * outWidth * outHeight + i]` for class `c`, and the winning
class is stored into the `Uint8Array` `classIds` (hence the `% 256`). -/
def decodeGrid (outputData : ℕ → ℚ) (numClasses outW outH : ℕ) : ℕ → ℕ :=
  fun i => decodePixel (fun c => outputData (c * (outW * outH) + i)) numClasses % 256

/-- The pixel loop of `preprocessImage`, generalized over the loop bound `n`
(the source runs it with `n = wh = width * height = 512 * 512`):
`floatData` starts as `new Float32Array(3 * wh)` (all zeros) and iteration
`i` writes `floatData[i] = data[i*4] / 255`,
`floatData[i + wh] = data[i*4+1] / 255`,
`floatData[i + 2*wh] = data[i*4+2] / 255`. -/
def preprocessLoop (data : ℕ → ℕ) (wh n : ℕ) : List ℚ :=
  (List.range n).foldl
    (fun fd i =>
      ((fd.set i ((data (i * 4) : ℚ) / 255)).set (i + wh) ((data (i * 4 + 1) : ℚ) / 255)).set
        (i + 2 * wh) ((data (i * 4 + 2) : ℚ) / 255))
    (List.replicate (3 * wh) 0)

/-- `preprocessImage` of MainNew.ts at its hard-coded 512×512 resolution. -/
def preprocessImage (data : ℕ → ℕ) : List ℚ := preprocessLoop data (512 * 512) (512 * 512)

/-- The 4×4 class-id grid of spec scenario A: the centre 2×2 block is
class 0 (wall), everything else class 2. -/
def grid4 : List ℕ := [2, 2, 2, 2, 2, 0, 0, 2, 2, 0, 0, 2, 2, 2, 2, 2]

/-- A decoded `HTMLImageElement` (dimensions only; pixel content is not
needed by any claim). -/
structure ImageEl where
  width : ℕ
  height : ℕ
deriving DecidableEq

/-- A failed texture decode: `img.onerror` fires and the `loadTexture`
promise rejects with the source path. -/
inductive TexError where
  | loadFailed : String → TexError
deriving DecidableEq

/-- `loadTexture(src)` resolves or rejects depending on whether the asset
at `src` decodes; the environment `env` supplies that outcome. -/
def loadTexture (env : String → Except TexError ImageEl) (src : String) :
    Except TexError ImageEl :=
  env src

/-- `createTiledPattern`: a pattern canvas of the texture's size scaled by
the category's tile scale. -/
structure PatternCanvas where
  width : ℚ
  height : ℚ
deriving DecidableEq

def createTiledPattern (texture : ImageEl) (scale : ℚ) : PatternCanvas :=
  ⟨(texture.width : ℚ) * scale, (texture.height : ℚ) * scale⟩

/-- What `drawSegmentationOverlay` draws once both textures have loaded:
the mask-space cells filled with the wall pattern (at alpha 0.85) and the
alpha bytes of the floor mask canvas. -/
structure OverlayResult where
  wallCells : List ℕ
  floorAlpha : List ℕ
deriving DecidableEq

/-- `drawSegmentationOverlay` of MainNew.ts: it first `await`s the wall
texture, then the floor texture — with no try/catch, so either rejection
propagates out of the whole function — and only then builds the wall and
floor masks, dilates them, and draws. -/
def drawSegmentationOverlay (env : String → Except TexError ImageEl)
    (outputClasses : List ℕ) (maskWidth maskHeight _canvasWidth _canvasHeight : ℕ) :
    Except TexError OverlayResult := do
  let wallTexture ← loadTexture env "/Textures/Floor.webp"
  let floorTexture ← loadTexture env "/Textures/Floor1.jpg"
  let _wallPatternCanvas := createTiledPattern wallTexture (0.25 : ℚ)
  let _floorPatternCanvas := createTiledPattern floorTexture (0.3 : ℚ)
  let wallMask := buildMask outputClasses 0
  let cleanWallMask := dilate wallMask maskWidth maskHeight
  let wallCells := (List.range (maskWidth * maskHeight)).filter
    (fun idx => cleanWallMask.getD idx 0 != 0)
  let floorMask := buildMask outputClasses 3
  let cleanFloorMask := dilate floorMask maskWidth maskHeight
  let floorAlpha := cleanFloorMask.map (fun v => if v != 0 then 255 else 0)
  pure ⟨wallCells, floorAlpha⟩

/-- An environment in which the wall texture decodes but the floor texture
fails to load. -/
def envFloorFails : String → Except TexError ImageEl := fun src =>
  if src = "/Textures/Floor1.jpg" then .error (.loadFailed src) else .ok ⟨1, 1⟩

/-! ### Generic list lemmas -/

theorem getD_set' {α : Type} (l : List α) (j k : ℕ) (v d : α) :
    (l.set j v).getD k d = if k = j ∧ j < l.length then v else l.getD k d := by
  induction l generalizing j k with
  | nil => simp
  | cons a t ih =>
    cases j with
    | zero =>
      cases k with
      | zero => simp
      | succ k => simp
    | succ j =>
      cases k with
      | zero => simp
      | succ k => simpa [Nat.succ_lt_succ_iff] using ih j k

theorem getD_replicate_self {α : Type} (n j : ℕ) (d : α) :
    (List.replicate n d).getD j d = d := by
  induction n generalizing j with
  | zero => simp
  | succ n ih => cases j <;> simp [ih]

theorem foldl_length_inv {α β : Type} (body : List β → α → List β)
    (hb : ∀ r a, (body r a).length = r.length) :
    ∀ (L : List α) (r : List β), (L.foldl body r).length = r.length := by
  intro L
  induction L with
  | nil => intro r; rfl
  | cons a t ih => intro r; rw [List.foldl_cons, ih, hb]

/-! ### Length and range facts about `dilate` -/

theorem touchRow_length (w h x y : ℕ) (dy : ℤ) (r : List ℕ) :
    (touchRow w h x y dy r).length = r.length := by
  unfold touchRow
  exact foldl_length_inv _ (fun r dx => by split <;> simp) offs r

theorem touch_length (w h x y : ℕ) (r : List ℕ) :
    (touch w h x y r).length = r.length := by
  unfold touch
  exact foldl_length_inv _ (fun r dy => touchRow_length w h x y dy r) offs r

theorem dilate_length (mask : List ℕ) (w h : ℕ) :
    (dilate mask w h).length = mask.length := by
  unfold dilate
  rw [foldl_length_inv _ (fun r y =>
    foldl_length_inv _ (fun r x => by
      split
      · rfl
      · exact touch_length w h x y r)
      (List.range w) r) (List.range h)]
  exact List.length_replicate _ _

theorem offs_eq : offs = [-1, 0, 1] := by decide

theorem mem_offs (d : ℤ) : d ∈ offs ↔ d = -1 ∨ d = 0 ∨ d = 1 := by
  rw [offs_eq]
  simp

theorem hitIdx_lt (w h x y : ℕ) (dy dx : ℤ) (hc : hitCond w h x y dy dx) :
    hitIdx w x y dy dx < w * h := by
  obtain ⟨h1, h2, h3, h4⟩ := hc
  unfold hitIdx
  have hw : (0 : ℤ) ≤ (w : ℤ) := by exact_mod_cast Nat.zero_le w
  have h5 : ((y : ℤ) + dy) * w ≤ ((h : ℤ) - 1) * w :=
    mul_le_mul_of_nonneg_right (by omega) hw
  have h6 : ((h : ℤ) - 1) * w + w = (h : ℤ) * w := by ring
  have h7 : ((y : ℤ) + dy) * w + ((x : ℤ) + dx) < ((w * h : ℕ) : ℤ) := by
    push_cast
    linarith
  have h0 : 0 ≤ ((y : ℤ) + dy) * w + ((x : ℤ) + dx) :=
    add_nonneg (mul_nonneg h3 hw) h1
  omega

theorem hitIdx_decomp (w h x y : ℕ) (dy dx : ℤ) (hc : hitCond w h x y dy dx) :
    hitIdx w x y dy dx = ((y : ℤ) + dy).toNat * w + ((x : ℤ) + dx).toNat ∧
      ((x : ℤ) + dx).toNat < w ∧ ((y : ℤ) + dy).toNat < h := by
  obtain ⟨h1, h2, h3, h4⟩ := hc
  refine ⟨?_, by omega, by omega⟩
  unfold hitIdx
  have he : ((y : ℤ) + dy) * w + ((x : ℤ) + dx) =
      ((((y : ℤ) + dy).toNat * w + ((x : ℤ) + dx).toNat : ℕ) : ℤ) := by
    push_cast
    rw [Int.toNat_of_nonneg h3, Int.toNat_of_nonneg h1]
  rw [he]
  exact Int.toNat_natCast _

/-! ### Characterization of `dilate`: which output cells are set -/

theorem touchRow_fold_getD_one (w h x y : ℕ) (dy : ℤ) (j : ℕ) :
    ∀ (L : List ℤ) (r : List ℕ), r.length = w * h →
      ((L.foldl (fun r dx => if hitCond w h x y dy dx then r.set (hitIdx w x y dy dx) 1 else r)
          r).getD j 0 = 1 ↔
        r.getD j 0 = 1 ∨ ∃ dx ∈ L, hitCond w h x y dy dx ∧ j = hitIdx w x y dy dx) := by
  intro L
  induction L with
  | nil => intro r hr; simp
  | cons a t ih =>
    intro r hr
    rw [List.foldl_cons]
    have hlen : (if hitCond w h x y dy a then r.set (hitIdx w x y dy a) 1 else r).length
        = w * h := by
      split <;> simp [hr]
    rw [ih _ hlen]
    by_cases hc : hitCond w h x y dy a
    · rw [if_pos hc, getD_set']
      have hidx : hitIdx w x y dy a < r.length := by
        rw [hr]; exact hitIdx_lt w h x y dy a hc
      by_cases hj : j = hitIdx w x y dy a
      · simp only [hj, hidx, and_true, if_pos rfl, List.mem_cons]
        constructor
        · intro _; right; exact ⟨a, Or.inl rfl, hc, rfl⟩
        · intro _; left; rfl
      · rw [if_neg (by tauto)]
        simp only [List.mem_cons]
        constructor
        · rintro (hl | ⟨dx, hdx, hcd, hjd⟩)
          · exact Or.inl hl
          · exact Or.inr ⟨dx, Or.inr hdx, hcd, hjd⟩
        · rintro (hl | ⟨dx, hdx, hcd, hjd⟩)
          · exact Or.inl hl
          · rcases hdx with rfl | hdx
            · exact absurd hjd hj
            · exact Or.inr ⟨dx, hdx, hcd, hjd⟩
    · rw [if_neg hc]
      simp only [List.mem_cons]
      constructor
      · rintro (hl | ⟨dx, hdx, hcd, hjd⟩)
        · exact Or.inl hl
        · exact Or.inr ⟨dx, Or.inr hdx, hcd, hjd⟩
      · rintro (hl | ⟨dx, hdx, hcd, hjd⟩)
        · exact Or.inl hl
        · rcases hdx with rfl | hdx
          · exact absurd hcd hc
          · exact Or.inr ⟨dx, hdx, hcd, hjd⟩

theorem touchRow_getD_one (w h x y : ℕ) (dy : ℤ) (r : List ℕ) (hr : r.length = w * h) (j : ℕ) :
    (touchRow w h x y dy r).getD j 0 = 1 ↔
      r.getD j 0 = 1 ∨ ∃ dx ∈ offs, hitCond w h x y dy dx ∧ j = hitIdx w x y dy dx := by
  unfold touchRow
  exact touchRow_fold_getD_one w h x y dy j offs r hr

theorem touch_fold_getD_one (w h x y : ℕ) (j : ℕ) :
    ∀ (L : List ℤ) (r : List ℕ), r.length = w * h →
      ((L.foldl (fun r dy => touchRow w h x y dy r) r).getD j 0 = 1 ↔
        r.getD j 0 = 1 ∨ ∃ dy ∈ L, ∃ dx ∈ offs,
          hitCond w h x y dy dx ∧ j = hitIdx w x y dy dx) := by
  intro L
  induction L with
  | nil => intro r hr; simp
  | cons a t ih =>
    intro r hr
    rw [List.foldl_cons]
    have hlen : (touchRow w h x y a r).length = w * h := by rw [touchRow_length, hr]
    rw [ih _ hlen, touchRow_getD_one w h x y a r hr j]
    simp only [List.mem_cons]
    constructor
    · rintro ((hl | ⟨dx, hdx, hcd, hjd⟩) | ⟨dy, hdy, rest⟩)
      · exact Or.inl hl
      · exact Or.inr ⟨a, Or.inl rfl, dx, hdx, hcd, hjd⟩
      · exact Or.inr ⟨dy, Or.inr hdy, rest⟩
    · rintro (hl | ⟨dy, rfl | hdy, rest⟩)
      · exact Or.inl (Or.inl hl)
      · exact Or.inl (Or.inr rest)
      · exact Or.inr ⟨dy, hdy, rest⟩

theorem touch_getD_one (w h x y : ℕ) (r : List ℕ) (hr : r.length = w * h) (j : ℕ) :
    (touch w h x y r).getD j 0 = 1 ↔
      r.getD j 0 = 1 ∨ ∃ dy ∈ offs, ∃ dx ∈ offs,
        hitCond w h x y dy dx ∧ j = hitIdx w x y dy dx := by
  unfold touch
  exact touch_fold_getD_one w h x y j offs r hr

theorem xfold_getD_one (mask : List ℕ) (w h y : ℕ) (j : ℕ) :
    ∀ (L : List ℕ) (r : List ℕ), r.length = w * h →
      ((L.foldl (fun r x => if mask.getD (y * w + x) 0 = 0 then r else touch w h x y r)
          r).getD j 0 = 1 ↔
        r.getD j 0 = 1 ∨ ∃ x ∈ L, mask.getD (y * w + x) 0 ≠ 0 ∧
          ∃ dy ∈ offs, ∃ dx ∈ offs, hitCond w h x y dy dx ∧ j = hitIdx w x y dy dx) := by
  intro L
  induction L with
  | nil => intro r hr; simp
  | cons a t ih =>
    intro r hr
    rw [List.foldl_cons]
    have hlen : (if mask.getD (y * w + a) 0 = 0 then r else touch w h a y r).length
        = w * h := by
      split
      · exact hr
      · rw [touch_length, hr]
    rw [ih _ hlen]
    by_cases hm : mask.getD (y * w + a) 0 = 0
    · rw [if_pos hm]
      simp only [List.mem_cons]
      constructor
      · rintro (hl | ⟨x, hx, rest⟩)
        · exact Or.inl hl
        · exact Or.inr ⟨x, Or.inr hx, rest⟩
      · rintro (hl | ⟨x, rfl | hx, hne, rest⟩)
        · exact Or.inl hl
        · exact absurd hm hne
        · exact Or.inr ⟨x, hx, hne, rest⟩
    · rw [if_neg hm, touch_getD_one w h a y r hr j]
      simp only [List.mem_cons]
      constructor
      · rintro ((hl | rest) | ⟨x, hx, rest⟩)
        · exact Or.inl hl
        · exact Or.inr ⟨a, Or.inl rfl, hm, rest⟩
        · exact Or.inr ⟨x, Or.inr hx, rest⟩
      · rintro (hl | ⟨x, rfl | hx, _, rest⟩)
        · exact Or.inl (Or.inl hl)
        · exact Or.inl (Or.inr rest)
        · exact Or.inr ⟨x, hx, ‹_›, rest⟩

theorem yfold_getD_one (mask : List ℕ) (w h : ℕ) (j : ℕ) :
    ∀ (L : List ℕ) (r : List ℕ), r.length = w * h →
      ((L.foldl (fun r y =>
          (List.range w).foldl
            (fun r x => if mask.getD (y * w + x) 0 = 0 then r else touch w h x y r) r)
          r).getD j 0 = 1 ↔
        r.getD j 0 = 1 ∨ ∃ y ∈ L, ∃ x ∈ List.range w, mask.getD (y * w + x) 0 ≠ 0 ∧
          ∃ dy ∈ offs, ∃ dx ∈ offs, hitCond w h x y dy dx ∧ j = hitIdx w x y dy dx) := by
  intro L
  induction L with
  | nil => intro r hr; simp
  | cons a t ih =>
    intro r hr
    rw [List.foldl_cons]
    have hlen : ((List.range w).foldl
        (fun r x => if mask.getD (a * w + x) 0 = 0 then r else touch w h x a r) r).length
        = w * h := by
      rw [foldl_length_inv _ (fun r x => by
        split
        · rfl
        · exact touch_length w h x a r) (List.range w) r, hr]
    rw [ih _ hlen, xfold_getD_one mask w h a j (List.range w) r hr]
    simp only [List.mem_cons]
    constructor
    · rintro ((hl | rest) | ⟨y, hy, rest⟩)
      · exact Or.inl hl
      · exact Or.inr ⟨a, Or.inl rfl, rest⟩
      · exact Or.inr ⟨y, Or.inr hy, rest⟩
    · rintro (hl | ⟨y, rfl | hy, rest⟩)
      · exact Or.inl (Or.inl hl)
      · exact Or.inl (Or.inr rest)
      · exact Or.inr ⟨y, hy, rest⟩

/-- Which cells of `dilate mask w h` hold `1`: exactly the in-bounds
neighbours (within the radius-1 square) of set source pixels. -/
theorem dilate_getD_one (mask : List ℕ) (w h : ℕ) (hlen : mask.length = w * h) (j : ℕ) :
    (dilate mask w h).getD j 0 = 1 ↔
      ∃ y < h, ∃ x < w, mask.getD (y * w + x) 0 ≠ 0 ∧
        ∃ dy ∈ offs, ∃ dx ∈ offs, hitCond w h x y dy dx ∧ j = hitIdx w x y dy dx := by
  unfold dilate
  rw [hlen, yfold_getD_one mask w h j (List.range h) _ (by simp)]
  rw [getD_replicate_self]
  simp [List.mem_range]

/-! ### `dilate` output values are only 0 or 1 -/

theorem foldl_getD_or {α : Type} (body : List ℕ → α → List ℕ) (j : ℕ)
    (hb : ∀ r a, (body r a).getD j 0 = r.getD j 0 ∨ (body r a).getD j 0 = 1) :
    ∀ (L : List α) (r : List ℕ),
      (L.foldl body r).getD j 0 = r.getD j 0 ∨ (L.foldl body r).getD j 0 = 1 := by
  intro L
  induction L with
  | nil => intro r; left; rfl
  | cons a t ih =>
    intro r
    rw [List.foldl_cons]
    rcases ih (body r a) with hh | hh
    · rcases hb r a with h2 | h2
      · left; rw [hh, h2]
      · right; rw [hh, h2]
    · right; exact hh

theorem set_getD_or (l : List ℕ) (j k : ℕ) :
    (l.set j 1).getD k 0 = l.getD k 0 ∨ (l.set j 1).getD k 0 = 1 := by
  rw [getD_set']
  split
  · right; rfl
  · left; rfl

theorem touchRow_getD_or (w h x y : ℕ) (dy : ℤ) (r : List ℕ) (j : ℕ) :
    (touchRow w h x y dy r).getD j 0 = r.getD j 0 ∨ (touchRow w h x y dy r).getD j 0 = 1 := by
  unfold touchRow
  exact foldl_getD_or _ j (fun r dx => by
    split
    · exact set_getD_or r _ j
    · left; rfl) offs r

theorem touch_getD_or (w h x y : ℕ) (r : List ℕ) (j : ℕ) :
    (touch w h x y r).getD j 0 = r.getD j 0 ∨ (touch w h x y r).getD j 0 = 1 := by
  unfold touch
  exact foldl_getD_or _ j (fun r dy => touchRow_getD_or w h x y dy r j) offs r

theorem dilate_getD_or (mask : List ℕ) (w h j : ℕ) :
    (dilate mask w h).getD j 0 = 0 ∨ (dilate mask w h).getD j 0 = 1 := by
  unfold dilate
  rcases foldl_getD_or (fun r y =>
      (List.range w).foldl
        (fun r x => if mask.getD (y * w + x) 0 = 0 then r else touch w h x y r) r) j
      (fun r y => foldl_getD_or _ j (fun r x => by
        split
        · left; rfl
        · exact touch_getD_or w h x y r j) (List.range w) r)
      (List.range h) (List.replicate mask.length 0) with hh | hh
  · left; rw [hh, getD_replicate_self]
  · right; exact hh

/-! ### Row/column index arithmetic -/

theorem rowcol_div (w a b : ℕ) (hb : b < w) : (a * w + b) / w = a := by
  have hw : 0 < w := by omega
  rw [Nat.add_comm, Nat.mul_comm, Nat.add_mul_div_left _ _ hw, Nat.div_eq_of_lt hb,
    Nat.zero_add]

theorem rowcol_inj (w a b c d : ℕ) (hb : b < w) (hd : d < w) (h : a * w + b = c * w + d) :
    a = c ∧ b = d := by
  have h1 : a = c := by
    have := rowcol_div w a b hb
    rw [h, rowcol_div w c d hd] at this
    omega
  subst h1
  exact ⟨rfl, Nat.add_left_cancel h⟩

theorem cell_lt (w h x y : ℕ) (hx : x < w) (hy : y < h) : y * w + x < w * h := by
  calc y * w + x < y * w + w := Nat.add_lt_add_left hx _
    _ = (y + 1) * w := (Nat.succ_mul y w).symm
    _ ≤ h * w := Nat.mul_le_mul_right w hy
    _ = w * h := Nat.mul_comm h w

/-! ### Characterization of `buildMask` -/

theorem buildMask_fold_getD (grid : List ℕ) (target : ℕ) (i : ℕ) :
    ∀ n, n ≤ grid.length →
      (((List.range n).foldl
          (fun m i => if grid.getD i 0 = target then m.set i 1 else m)
          (List.replicate grid.length 0)).getD i 0)
        = if grid.getD i 0 = target ∧ i < n then 1 else 0 := by
  intro n
  induction n with
  | zero =>
    intro _
    rw [List.range_zero, List.foldl_nil, getD_replicate_self]
    simp
  | succ n ih =>
    intro hn
    rw [List.range_succ, List.foldl_append, List.foldl_cons, List.foldl_nil]
    have hplen : ((List.range n).foldl
        (fun m i => if grid.getD i 0 = target then m.set i 1 else m)
        (List.replicate grid.length 0)).length = grid.length := by
      rw [foldl_length_inv _ (fun m i => by split <;> simp) (List.range n)]
      exact List.length_replicate _ _
    by_cases hgn : grid.getD n 0 = target
    · rw [if_pos hgn, getD_set', hplen]
      by_cases hin : i = n
      · subst hin
        rw [if_pos ⟨rfl, by omega⟩, if_pos ⟨hgn, by omega⟩]
      · have hiff : (grid.getD i 0 = target ∧ i < n) ↔ (grid.getD i 0 = target ∧ i < n + 1) :=
          and_congr_right fun _ => ⟨fun hl => by omega, fun hl => by omega⟩
        rw [if_neg (by tauto), ih (by omega), if_congr hiff rfl rfl]
    · rw [if_neg hgn, ih (by omega)]
      by_cases hin : i = n
      · subst hin
        rw [if_neg (by tauto), if_neg (by tauto)]
      · have hiff : (grid.getD i 0 = target ∧ i < n) ↔ (grid.getD i 0 = target ∧ i < n + 1) :=
          and_congr_right fun _ => ⟨fun hl => by omega, fun hl => by omega⟩
        rw [if_congr hiff rfl rfl]

theorem buildMask_getD (grid : List ℕ) (target i : ℕ) :
    (buildMask grid target).getD i 0
      = if grid.getD i 0 = target ∧ i < grid.length then 1 else 0 := by
  unfold buildMask
  exact buildMask_fold_getD grid target i grid.length le_rfl

/-! ### Claim theorems about `dilate` -/

/-- Claim C1: for a boolean mask of dimensions `w × h` (`w, h ≥ 1`), the
output pixel of `dilate` at `(x, y)` is set exactly when some in-bounds
pixel `(x', y')` at Chebyshev distance at most 1 is set in the input;
out-of-bounds neighbours are skipped and the single pass adds nothing
farther than the radius. -/
theorem dilate_neighborhood_c1 (M : List ℕ) (w h x y : ℕ)
    (_hw : 1 ≤ w) (_hh : 1 ≤ h) (hlen : M.length = w * h)
    (hbool : ∀ j, j < w * h → M.getD j 0 ≤ 1) (hx : x < w) (hy : y < h) :
    (dilate M w h).getD (y * w + x) 0 = 1 ↔
      ∃ x' y', x' < w ∧ y' < h ∧ ((x : ℤ) - x').natAbs ≤ 1 ∧ ((y : ℤ) - y').natAbs ≤ 1 ∧
        M.getD (y' * w + x') 0 = 1 := by
  rw [dilate_getD_one M w h hlen]
  constructor
  · rintro ⟨y₀, hy₀, x₀, hx₀, hm, dy, hdy, dx, hdx, hc, hj⟩
    obtain ⟨hdec, hnx, hny⟩ := hitIdx_decomp w h x₀ y₀ dy dx hc
    rw [hdec] at hj
    obtain ⟨hy', hx'⟩ := rowcol_inj w y x _ _ hx hnx hj
    have hxe : (x : ℤ) = (x₀ : ℤ) + dx := by
      rw [hx']
      exact Int.toNat_of_nonneg hc.1
    have hye : (y : ℤ) = (y₀ : ℤ) + dy := by
      rw [hy']
      exact Int.toNat_of_nonneg hc.2.2.1
    have hdxm := (mem_offs dx).1 hdx
    have hdym := (mem_offs dy).1 hdy
    have hm1 : M.getD (y₀ * w + x₀) 0 = 1 := by
      have := hbool (y₀ * w + x₀) (cell_lt w h x₀ y₀ hx₀ hy₀)
      omega
    exact ⟨x₀, y₀, hx₀, hy₀, by omega, by omega, hm1⟩
  · rintro ⟨x', y', hx', hy', hax, hay, hm⟩
    refine ⟨y', hy', x', hx', by omega, (y : ℤ) - y', ?_, (x : ℤ) - x', ?_, ?_, ?_⟩
    · exact (mem_offs _).2 (by omega)
    · exact (mem_offs _).2 (by omega)
    · exact ⟨by omega, by omega, by omega, by omega⟩
    · unfold hitIdx
      have h1 : ((y' : ℤ) + ((y : ℤ) - (y' : ℤ))) = (y : ℤ) := by ring
      have h2 : ((x' : ℤ) + ((x : ℤ) - (x' : ℤ))) = (x : ℤ) := by ring
      rw [h1, h2]
      have h3 : ((y : ℤ) * (w : ℤ) + (x : ℤ)) = ((y * w + x : ℕ) : ℤ) := by
        push_cast
        ring
      rw [h3, Int.toNat_natCast]

theorem dilate_neighborhood_c1_witness :
    1 ≤ 1 ∧ ([1] : List ℕ).length = 1 * 1 ∧ (∀ j, j < 1 * 1 → ([1] : List ℕ).getD j 0 ≤ 1) ∧
      0 < 1 ∧
      ((dilate [1] 1 1).getD (0 * 1 + 0) 0 = 1 ↔
        ∃ x' y' : ℕ, x' < 1 ∧ y' < 1 ∧ (((0 : ℕ) : ℤ) - x').natAbs ≤ 1 ∧
          (((0 : ℕ) : ℤ) - y').natAbs ≤ 1 ∧ ([1] : List ℕ).getD (y' * 1 + x') 0 = 1) :=
  ⟨by decide, by decide, by decide, by decide,
    dilate_neighborhood_c1 [1] 1 1 0 0 (by decide) (by decide) (by decide) (by decide)
      (by decide) (by decide)⟩

/-- Claim C5: dilation is inflationary on boolean masks: it never unsets a
set pixel, `dilate(M)[i] ≥ M[i]`. -/
theorem dilate_inflationary_c5 (M : List ℕ) (w h i : ℕ) (hlen : M.length = w * h)
    (hbool : ∀ j, j < w * h → M.getD j 0 ≤ 1) (hi : i < w * h) :
    M.getD i 0 ≤ (dilate M w h).getD i 0 := by
  by_cases hz : M.getD i 0 = 0
  · rw [hz]
    exact Nat.zero_le _
  · have h1 : M.getD i 0 = 1 := by
      have := hbool i hi
      omega
    have hw : 0 < w := by
      rcases Nat.eq_zero_or_pos w with rfl | hw
      · rw [Nat.zero_mul] at hi
        omega
      · exact hw
    obtain ⟨q, r, hqr, hrlt, hqlt⟩ : ∃ q r, q * w + r = i ∧ r < w ∧ q < h := by
      refine ⟨i / w, i % w, ?_, Nat.mod_lt _ hw, ?_⟩
      · rw [Nat.mul_comm]
        exact Nat.div_add_mod i w
      · rw [Nat.div_lt_iff_lt_mul hw]
        rw [Nat.mul_comm w h] at hi
        exact hi
    have hone : (dilate M w h).getD i 0 = 1 := by
      rw [dilate_getD_one M w h hlen]
      refine ⟨q, hqlt, r, hrlt, by rw [hqr]; omega, 0, ?_, 0, ?_, ?_, ?_⟩
      · exact (mem_offs 0).2 (Or.inr (Or.inl rfl))
      · exact (mem_offs 0).2 (Or.inr (Or.inl rfl))
      · exact ⟨by omega, by omega, by omega, by omega⟩
      · unfold hitIdx
        have h3 : ((q : ℤ) + 0) * (w : ℤ) + ((r : ℤ) + 0) = ((q * w + r : ℕ) : ℤ) := by
          push_cast
          ring
        rw [h3, Int.toNat_natCast, hqr]
    rw [h1, hone]

theorem dilate_inflationary_c5_witness :
    ([1] : List ℕ).length = 1 * 1 ∧ (∀ j, j < 1 * 1 → ([1] : List ℕ).getD j 0 ≤ 1) ∧
      0 < 1 * 1 ∧ ([1] : List ℕ).getD 0 0 ≤ (dilate [1] 1 1).getD 0 0 :=
  ⟨by decide, by decide, by decide,
    dilate_inflationary_c5 [1] 1 1 0 (by decide) (by decide) (by decide)⟩

/-- Claim C10: dilation is monotone under mask inclusion, its output values
are exactly 0 or 1, and the output array keeps the input's length. -/
theorem dilate_monotone_clean_c10 (M N : List ℕ) (w h : ℕ)
    (hM : M.length = w * h) (hN : N.length = w * h)
    (hsub : ∀ j, j < w * h → M.getD j 0 ≠ 0 → N.getD j 0 ≠ 0) :
    (∀ i, (dilate M w h).getD i 0 = 1 → (dilate N w h).getD i 0 = 1) ∧
      (∀ i, (dilate M w h).getD i 0 = 0 ∨ (dilate M w h).getD i 0 = 1) ∧
      (dilate M w h).length = M.length := by
  refine ⟨?_, fun i => dilate_getD_or M w h i, dilate_length M w h⟩
  intro i him
  rw [dilate_getD_one M w h hM] at him
  rw [dilate_getD_one N w h hN]
  obtain ⟨y, hy, x, hx, hm, rest⟩ := him
  exact ⟨y, hy, x, hx, hsub _ (cell_lt w h x y hx hy) hm, rest⟩

theorem dilate_monotone_clean_c10_witness :
    ([1] : List ℕ).length = 1 * 1 ∧ ([1] : List ℕ).length = 1 * 1 ∧
      (∀ j, j < 1 * 1 → ([1] : List ℕ).getD j 0 ≠ 0 → ([1] : List ℕ).getD j 0 ≠ 0) ∧
      ((∀ i, (dilate [1] 1 1).getD i 0 = 1 → (dilate [1] 1 1).getD i 0 = 1) ∧
        (∀ i, (dilate [1] 1 1).getD i 0 = 0 ∨ (dilate [1] 1 1).getD i 0 = 1) ∧
        (dilate [1] 1 1).length = ([1] : List ℕ).length) :=
  ⟨by decide, by decide, fun j _ hj => hj,
    dilate_monotone_clean_c10 [1] [1] 1 1 (by decide) (by decide) (fun j _ hj => hj)⟩

/-! ### The argmax scan of `run` -/

theorem argmaxScan_spec (score : ℕ → ℚ) :
    ∀ n, 1 ≤ n →
      (argmaxScan score n).1 = ((score (argmaxScan score n).2 : ℚ) : WithBot ℚ) ∧
      (argmaxScan score n).2 < n ∧
      (∀ c, c < n → score c ≤ score (argmaxScan score n).2) ∧
      (∀ c, c < n → score c = score (argmaxScan score n).2 → (argmaxScan score n).2 ≤ c) := by
  intro n hn
  induction n, hn using Nat.le_induction with
  | base =>
    have h1 : argmaxScan score 1 = (((score 0 : ℚ) : WithBot ℚ), 0) := by
      unfold argmaxScan
      rw [List.range_succ, List.range_zero, List.nil_append, List.foldl_cons, List.foldl_nil,
        if_pos (WithBot.bot_lt_coe _)]
    rw [h1]
    refine ⟨rfl, Nat.zero_lt_one, ?_, ?_⟩
    · intro c hc
      interval_cases c
      exact le_refl _
    · intro c hc _
      exact Nat.zero_le c
  | succ n hn ih =>
    obtain ⟨h1, h2, h3, h4⟩ := ih
    have hstep : argmaxScan score (n + 1) =
        if (argmaxScan score n).1 < ((score n : ℚ) : WithBot ℚ)
          then (((score n : ℚ) : WithBot ℚ), n) else argmaxScan score n := by
      unfold argmaxScan
      rw [List.range_succ, List.foldl_append, List.foldl_cons, List.foldl_nil]
    simp only [h1, WithBot.coe_lt_coe] at hstep
    by_cases hlt : score (argmaxScan score n).2 < score n
    · rw [hstep, if_pos hlt]
      refine ⟨rfl, Nat.lt_succ_self n, ?_, ?_⟩
      · intro c hc
        rcases Nat.lt_succ_iff_lt_or_eq.1 hc with hc | rfl
        · exact le_of_lt (lt_of_le_of_lt (h3 c hc) hlt)
        · exact le_refl _
      · intro c hc he
        rcases Nat.lt_succ_iff_lt_or_eq.1 hc with hc | rfl
        · exact absurd he (ne_of_lt (lt_of_le_of_lt (h3 c hc) hlt))
        · exact le_refl _
    · rw [hstep, if_neg hlt]
      refine ⟨h1, Nat.lt_succ_of_lt h2, ?_, ?_⟩
      · intro c hc
        rcases Nat.lt_succ_iff_lt_or_eq.1 hc with hc | rfl
        · exact h3 c hc
        · exact le_of_not_lt hlt
      · intro c hc he
        rcases Nat.lt_succ_iff_lt_or_eq.1 hc with hc | rfl
        · exact h4 c hc he
        · exact le_of_lt h2

/-- Claim C2: the decode loop of `run` (strict `>` scan starting from
`-Infinity` and class 0) selects, at each spatial position, a class of
maximal score, and on exact ties the lowest such class index; in `run` the
per-position score function is `fun c => outputData (c * outW * outH + i)`. -/
theorem decode_argmax_c2 (score : ℕ → ℚ) (numClasses : ℕ) (hn : 1 ≤ numClasses) :
    decodePixel score numClasses < numClasses ∧
      (∀ c, c < numClasses → score c ≤ score (decodePixel score numClasses)) ∧
      (∀ c, c < numClasses → score c = score (decodePixel score numClasses) →
        decodePixel score numClasses ≤ c) := by
  obtain ⟨_, h2, h3, h4⟩ := argmaxScan_spec score numClasses hn
  exact ⟨h2, h3, h4⟩

theorem decode_argmax_c2_witness :
    1 ≤ 1 ∧
      (decodePixel (fun _ => (0 : ℚ)) 1 < 1 ∧
        (∀ c, c < 1 → (fun _ => (0 : ℚ)) c ≤ (fun _ => (0 : ℚ)) (decodePixel (fun _ => (0 : ℚ)) 1)) ∧
        (∀ c, c < 1 → (fun _ => (0 : ℚ)) c = (fun _ => (0 : ℚ)) (decodePixel (fun _ => (0 : ℚ)) 1) →
          decodePixel (fun _ => (0 : ℚ)) 1 ≤ c)) :=
  ⟨le_refl 1, decode_argmax_c2 (fun _ => (0 : ℚ)) 1 (le_refl 1)⟩

/-- Claim C6: with `1 ≤ numClasses ≤ 255`, every value of the decoded
class-id grid (including the `Uint8Array` store, the `% 256`) is a valid
index into the class axis, i.e. lies in `[0, numClasses)`. -/
theorem decode_grid_range_c6 (outputData : ℕ → ℚ) (numClasses outW outH i : ℕ)
    (hn : 1 ≤ numClasses) (h255 : numClasses ≤ 255) :
    decodeGrid outputData numClasses outW outH i < numClasses := by
  obtain ⟨_, h2, _, _⟩ :=
    argmaxScan_spec (fun c => outputData (c * (outW * outH) + i)) numClasses hn
  have h2' : decodePixel (fun c => outputData (c * (outW * outH) + i)) numClasses
      < numClasses := h2
  unfold decodeGrid
  rw [Nat.mod_eq_of_lt (by omega)]
  exact h2'

theorem decode_grid_range_c6_witness :
    1 ≤ 1 ∧ 1 ≤ 255 ∧ decodeGrid (fun _ => (0 : ℚ)) 1 1 1 0 < 1 :=
  ⟨le_refl 1, by omega, decode_grid_range_c6 (fun _ => (0 : ℚ)) 1 1 1 0 (le_refl 1) (by omega)⟩

/-! ### Claim theorems about `buildMask` -/

/-- Claim C3: the built category mask is set at `i` exactly when the grid
holds the target class there; consequently the wall mask (class 0) and the
floor mask (class 3) built from the same grid are disjoint. -/
theorem buildMask_equality_c3 (grid : List ℕ) (target i : ℕ) (hi : i < grid.length) :
    ((buildMask grid target).getD i 0 = 1 ↔ grid.getD i 0 = target) ∧
      ¬((buildMask grid 0).getD i 0 = 1 ∧ (buildMask grid 3).getD i 0 = 1) := by
  constructor
  · rw [buildMask_getD]
    by_cases hg : grid.getD i 0 = target
    · rw [if_pos ⟨hg, hi⟩]
      exact ⟨fun _ => hg, fun _ => rfl⟩
    · rw [if_neg (fun hc => hg hc.1)]
      exact ⟨fun h01 => absurd h01 (by decide), fun hgt => absurd hgt hg⟩
  · rintro ⟨h0, h3⟩
    rw [buildMask_getD] at h0 h3
    have hh0 : grid.getD i 0 = 0 := by
      by_contra hc
      rw [if_neg (fun hx => hc hx.1)] at h0
      exact absurd h0 (by decide)
    have hh3 : grid.getD i 0 = 3 := by
      by_contra hc
      rw [if_neg (fun hx => hc hx.1)] at h3
      exact absurd h3 (by decide)
    omega

theorem buildMask_equality_c3_witness :
    0 < ([0] : List ℕ).length ∧
      ((((buildMask [0] 0).getD 0 0 = 1 ↔ ([0] : List ℕ).getD 0 0 = 0) ∧
        ¬((buildMask [0] 0).getD 0 0 = 1 ∧ (buildMask [0] 3).getD 0 0 = 1))) :=
  ⟨by decide, buildMask_equality_c3 [0] 0 0 (by decide)⟩

/-- Claim C7: on `grid4`, the wall mask has exactly the four centre pixels
set, and its radius-1 dilation sets all 16 pixels. -/
theorem grid4_scenario_c7 :
    (∀ i, i < 16 →
      ((buildMask grid4 0).getD i 0 = 1 ↔ (i = 5 ∨ i = 6 ∨ i = 9 ∨ i = 10))) ∧
      (∀ i, i < 16 → (dilate (buildMask grid4 0) 4 4).getD i 0 = 1) := by
  decide

theorem grid4_scenario_c7_witness :
    ((buildMask grid4 0).getD 5 0 = 1 ↔ (5 = 5 ∨ 5 = 6 ∨ 5 = 9 ∨ 5 = 10)) ∧
      (dilate (buildMask grid4 0) 4 4).getD 0 0 = 1 :=
  ⟨grid4_scenario_c7.1 5 (by omega), grid4_scenario_c7.2 0 (by omega)⟩

/-- Claim C8: radius-1 dilation is not idempotent: on some mask a second
application grows the result further. -/
theorem dilate_not_idempotent_c8 :
    ∃ (w h : ℕ) (M : List ℕ), dilate (dilate M w h) w h ≠ dilate M w h :=
  ⟨5, 1, [0, 0, 1, 0, 0], by decide⟩

/-! ### `preprocessImage` -/

theorem preprocessLoop_length (data : ℕ → ℕ) (wh n : ℕ) :
    (preprocessLoop data wh n).length = 3 * wh := by
  unfold preprocessLoop
  rw [foldl_length_inv _ (fun fd i => by simp) (List.range n)]
  exact List.length_replicate _ _

theorem preprocessLoop_getD (data : ℕ → ℕ) (wh : ℕ) :
    ∀ n, n ≤ wh → ∀ i, i < n →
      (preprocessLoop data wh n).getD i 0 = (data (i * 4) : ℚ) / 255 ∧
      (preprocessLoop data wh n).getD (i + wh) 0 = (data (i * 4 + 1) : ℚ) / 255 ∧
      (preprocessLoop data wh n).getD (i + 2 * wh) 0 = (data (i * 4 + 2) : ℚ) / 255 := by
  intro n
  induction n with
  | zero =>
    intro _ i hi
    exact absurd hi (Nat.not_lt_zero i)
  | succ n ih =>
    intro hn i hi
    have hlen : (preprocessLoop data wh n).length = 3 * wh := preprocessLoop_length data wh n
    have hstep : preprocessLoop data wh (n + 1) =
        (((preprocessLoop data wh n).set n ((data (n * 4) : ℚ) / 255)).set (n + wh)
          ((data (n * 4 + 1) : ℚ) / 255)).set (n + 2 * wh) ((data (n * 4 + 2) : ℚ) / 255) := by
      unfold preprocessLoop
      rw [List.range_succ, List.foldl_append, List.foldl_cons, List.foldl_nil]
    rcases Nat.lt_succ_iff_lt_or_eq.1 hi with hi' | rfl
    · obtain ⟨g1, g2, g3⟩ := ih (by omega) i hi'
      refine ⟨?_, ?_, ?_⟩
      · rw [hstep, getD_set', if_neg (fun hx => absurd hx.1 (by omega)), getD_set',
          if_neg (fun hx => absurd hx.1 (by omega)), getD_set',
          if_neg (fun hx => absurd hx.1 (by omega))]
        exact g1
      · rw [hstep, getD_set', if_neg (fun hx => absurd hx.1 (by omega)), getD_set',
          if_neg (fun hx => absurd hx.1 (by omega)), getD_set',
          if_neg (fun hx => absurd hx.1 (by omega))]
        exact g2
      · rw [hstep, getD_set', if_neg (fun hx => absurd hx.1 (by omega)), getD_set',
          if_neg (fun hx => absurd hx.1 (by omega)), getD_set',
          if_neg (fun hx => absurd hx.1 (by omega))]
        exact g3
    · refine ⟨?_, ?_, ?_⟩
      · rw [hstep, getD_set', if_neg (fun hx => absurd hx.1 (by omega)), getD_set',
          if_neg (fun hx => absurd hx.1 (by omega)), getD_set',
          if_pos ⟨rfl, by rw [hlen]; omega⟩]
      · rw [hstep, getD_set', if_neg (fun hx => absurd hx.1 (by omega)), getD_set',
          if_pos ⟨rfl, by rw [List.length_set, hlen]; omega⟩]
      · rw [hstep, getD_set',
          if_pos ⟨rfl, by simp only [List.length_set]; rw [hlen]; omega⟩]

/-- Claim C9: `preprocessImage` produces a channel-planar array of length
`3 * 512 * 512` with `out[c * 512 * 512 + i] = data[4 * i + c] / 255` for
`c ∈ {0, 1, 2}` (R, G, B); the alpha byte `data[4 * i + 3]` is never read. -/
theorem preprocess_layout_c9 (data : ℕ → ℕ) (i c : ℕ) (hi : i < 512 * 512) (hc : c < 3) :
    (preprocessImage data).length = 3 * (512 * 512) ∧
      (preprocessImage data).getD (c * (512 * 512) + i) 0 = (data (4 * i + c) : ℚ) / 255 := by
  refine ⟨preprocessLoop_length data _ _, ?_⟩
  obtain ⟨g1, g2, g3⟩ := preprocessLoop_getD data (512 * 512) (512 * 512) le_rfl i hi
  unfold preprocessImage
  interval_cases c
  · rw [show 0 * (512 * 512) + i = i from by omega, show 4 * i + 0 = i * 4 from by omega]
    exact g1
  · rw [show 1 * (512 * 512) + i = i + 512 * 512 from by omega,
      show 4 * i + 1 = i * 4 + 1 from by omega]
    exact g2
  · rw [show 2 * (512 * 512) + i = i + 2 * (512 * 512) from by omega,
      show 4 * i + 2 = i * 4 + 2 from by omega]
    exact g3

theorem preprocess_layout_c9_witness :
    0 < 512 * 512 ∧ 0 < 3 ∧
      ((preprocessImage (fun _ => 0)).length = 3 * (512 * 512) ∧
        (preprocessImage (fun _ => 0)).getD (0 * (512 * 512) + 0) 0
          = (((fun _ => (0 : ℕ)) (4 * 0 + 0) : ℕ) : ℚ) / 255) :=
  ⟨by omega, by omega, preprocess_layout_c9 (fun _ => 0) 0 0 (by omega) (by omega)⟩

/-! ### Texture load failure during compositing (claim C4) -/

/-- Counterexample to claim C4: with the wall texture loading fine and the
floor texture failing, `drawSegmentationOverlay` does not complete with a
wall overlay — the un-caught rejection of the second `await loadTexture`
propagates, so the whole run errors out before anything is drawn. -/
theorem overlay_floor_failure_c4_counterexample :
    drawSegmentationOverlay envFloorFails [0] 1 1 1 1
      = Except.error (TexError.loadFailed "/Textures/Floor1.jpg") := by
  rfl

/-- Amended claim C4: when the wall texture loads and the floor texture
fails, the whole compositing run aborts with that texture error (no wall
overlay is produced); nothing catches the rejected `await`. -/
theorem overlay_floor_failure_c4 (env : String → Except TexError ImageEl)
    (img : ImageEl) (e : TexError) (outputClasses : List ℕ) (mw mh cw ch : ℕ)
    (hwall : env "/Textures/Floor.webp" = Except.ok img)
    (hfloor : env "/Textures/Floor1.jpg" = Except.error e) :
    drawSegmentationOverlay env outputClasses mw mh cw ch = Except.error e := by
  unfold drawSegmentationOverlay loadTexture
  rw [hwall, hfloor]
  rfl

theorem overlay_floor_failure_c4_witness :
    envFloorFails "/Textures/Floor.webp" = Except.ok ⟨1, 1⟩ ∧
      envFloorFails "/Textures/Floor1.jpg"
        = Except.error (TexError.loadFailed "/Textures/Floor1.jpg") ∧
      drawSegmentationOverlay envFloorFails [2] 2 2 4 4
        = Except.error (TexError.loadFailed "/Textures/Floor1.jpg") :=
  ⟨rfl, rfl,
    overlay_floor_failure_c4 envFloorFails ⟨1, 1⟩
      (TexError.loadFailed "/Textures/Floor1.jpg") [2] 2 2 4 4 rfl rfl⟩

end WallSeg
